import Mathlib

/-!
Verification of the job lifecycle orchestrator in
`src/executors/flowcept_exp_executor/run_dask_job.py`.

The orchestrator drives one repetition of a distributed compute
experiment: optional monitoring start, scheduler launch gated by a
filesystem readiness probe, GPU-worker fan-out, client invocation,
monitoring stop, and result aggregation; a top-level driver runs
`nreps` repetitions and writes a SUCCESS marker.

The embedding below models time as the discrete elapsed-seconds counter
that the code itself maintains (`elapsed_time`), filesystem existence as
a Boolean oracle indexed by that counter, and external side effects
(cluster submissions, client execution, monitoring calls) as events in a
trace.  Python string replacement is modelled on `List Char`.
-/

namespace RunDaskJob

/-- External side effects performed by one repetition, in program order.
`killAllSteps` is `cluster_utils.kill_all_running_job_steps()`,
`monStart` is the completion of `start_flowcept` (consumer started),
`schedulerSubmit` is the `cluster_utils.run_job` call in `start_scheduler`,
`workerSubmit i` is the per-node `cluster_utils.run_job` call in
`start_workers_with_gpu`, `clientInvoke` is `run_cmd_check_output` of the
client command, `monStop` is `consumer.stop()`, `resultFileRead` is the
read of `workflow_result.json`, `jobOutputWrite` is
`cluster_utils.generate_job_output`, and `persistCall` is
`test_data_and_persist`. -/
inductive Event where
  | killAllSteps
  | monStart
  | schedulerSubmit
  | workerSubmit (node : Nat)
  | clientInvoke
  | monStop
  | resultFileRead
  | jobOutputWrite
  | persistCall
deriving DecidableEq, Repr

/-- How one call of `main` ends: `ok` is a normal return, `failTimeout`
is the `return -1` taken when the scheduler file never appears,
`raisedValueError` is the `raise ValueError("Unknown gpu")` path,
`raisedClientError` is an exception propagating out of
`run_cmd_check_output`, and `raisedNameError n` is a Python `NameError`
on the undefined local name `n`. -/
inductive Outcome where
  | ok
  | failTimeout
  | raisedValueError
  | raisedClientError
  | raisedNameError (n : String)
deriving DecidableEq, Repr

/-- Source lines 44-49: the vendor branch at the top of `start_scheduler`,
run before the scheduler `run_job` submission. -/
def schedulerVisibleDevice (gpu_type : String) : Except String String :=
  if gpu_type = "amd" then Except.ok "export ROCR_VISIBLE_DEVICES=\x27\x27"
  else if gpu_type = "nvidia" then Except.ok "export CUDA_VISIBLE_DEVICES=\x27\x27"
  else Except.error "Unknown gpu"

/-- Source lines 92-97: the vendor branch at the top of
`start_workers_with_gpu`, run before any worker `run_job` submission. -/
def workerVisibleDevice (gpu_type : String) : Except String String :=
  if gpu_type = "amd" then Except.ok "ROCR_VISIBLE_DEVICES"
  else if gpu_type = "nvidia" then Except.ok "CUDA_VISIBLE_DEVICES"
  else Except.error "Unknown gpu"

/-- Whether `gpu_type` is one of the two recognized vendor tags. -/
def vendorOkB (gpu_type : String) : Bool :=
  gpu_type == "amd" || gpu_type == "nvidia"

/-- Source line 65: `total_wait_time = 160  # in seconds`. -/
def total_wait_time : Nat := 160

/-- Source line 69: `wait_time = 3`, the fixed poll interval. -/
def wait_time : Nat := 3

/-- The waiting loop of `start_scheduler` (source lines 70-74):
`while not os.path.exists(scheduler_file) and elapsed_time < total_wait_time`.
`ex t` tells whether the scheduler file exists when the elapsed counter
is `t`; the loop checks existence at elapsed times `0, 3, 6, ...` and
stops at the first check where the file exists or the elapsed time has
reached the budget.  Returns the elapsed time at which the loop stopped.
The `fuel` argument only bounds the recursion; `55` iterations always
suffice to reach `162 ≥ 160` (fuel-independence is proved below). -/
def probeAux (ex : Nat → Bool) : Nat → Nat → Nat
  | elapsed, 0 => elapsed
  | elapsed, fuel + 1 =>
    if ex elapsed || decide (total_wait_time ≤ elapsed) then elapsed
    else probeAux ex (elapsed + wait_time) fuel

/-- Source lines 76-82: after the loop, `start_scheduler` performs one
more `os.path.exists(scheduler_file)` check and returns its value. -/
def awaitReady (ex : Nat → Bool) : Bool :=
  ex (probeAux ex 0 55)

/-- One worker launch descriptor: source lines 105-110 produce, for node
`i` and local GPU `j`, the command
`export VAR={j} && dask worker ... > stdout 2> stderr` with stdout/stderr
files under `worker_logs`.  `visibleDevices` records the device indices
the export makes visible (exactly the one index `j`). -/
structure WorkerDescriptor where
  node : Nat
  gpu : Nat
  envVar : String
  visibleDevices : List Nat
  stdout : String
  stderr : String
deriving DecidableEq, Repr

/-- The descriptor built in the inner loop body (source lines 105-110). -/
def mkWorkerDescriptor (envVar rep_dir : String) (i j : Nat) : WorkerDescriptor :=
  { node := i
    gpu := j
    envVar := envVar
    visibleDevices := [j]
    stdout := rep_dir ++ "/worker_logs/worker_" ++ toString i ++ "_" ++ toString j ++ ".out"
    stderr := rep_dir ++ "/worker_logs/worker_" ++ toString i ++ "_" ++ toString j ++ ".err" }

/-- The worker launch plan: the two nested loops of
`start_workers_with_gpu` (source lines 103-112), node-major, GPU-minor. -/
def workerPlan (nnodes n_gpus_per_node : Nat) (envVar rep_dir : String) :
    List WorkerDescriptor :=
  (List.range nnodes).flatMap (fun i =>
    (List.range n_gpus_per_node).map (fun j => mkWorkerDescriptor envVar rep_dir i j))

/-- `start_scheduler` (source lines 43-82) as a trace-producing step: the
vendor branch runs first; on an unknown vendor the `ValueError` is raised
before the `run_job` submission; otherwise the scheduler process group is
submitted once and the readiness probe result is returned. -/
def start_scheduler_run (gpu_type : String) (ex : Nat → Bool) :
    List Event × Except String Bool :=
  match schedulerVisibleDevice gpu_type with
  | Except.error e => ([], Except.error e)
  | Except.ok _ => ([Event.schedulerSubmit], Except.ok (awaitReady ex))

/-- `start_workers_with_gpu` (source lines 85-117) as a trace-producing
step: vendor branch first (before any submission), then one `run_job`
submission per node, carrying that node's worker descriptors. -/
def start_workers_run (nnodes n_gpus_per_node : Nat) (gpu_type rep_dir : String) :
    List Event × Except String (List WorkerDescriptor) :=
  match workerVisibleDevice gpu_type with
  | Except.error e => ([], Except.error e)
  | Except.ok envVar =>
    ((List.range nnodes).map Event.workerSubmit,
      Except.ok (workerPlan nnodes n_gpus_per_node envVar rep_dir))

/-- The local names bound by assignment (or as parameters) somewhere in
the body of `main` (source lines 198-284).  Python resolves a bare name
in `main` against these; referencing any other name raises `NameError`. -/
def mainLocals : List String :=
  ["exp_conf", "varying_param_key", "my_job_id", "rep_no",
   "cluster_utils", "proj_dir", "job_dir", "rep_dir", "nnodes",
   "n_gpus_per_node", "dask_workers_startup_wait_in_sec", "gpu_type",
   "scheduler_file", "with_flowcept", "with_flowcept_arg", "python_env",
   "job_hosts", "preload_scheduler_cmd", "t0", "consumer",
   "flowcept_settings", "t_c_f", "t_c_i", "workflow_result_file",
   "workflow_result", "t1", "job_output"]

/-- Name resolution for a bare identifier inside `main`. -/
def lookupName (n : String) : Option Unit :=
  if mainLocals.contains n then some () else none

/-- Result collection (source lines 251-257): if `workflow_result.json`
exists the code evaluates `open(json_file_path, ...)`, resolving the name
`json_file_path`; if the file is absent, `workflow_result = None`. -/
def resultCollectionRun (wfExists : Bool) (contents : String) :
    List Event × Except String (Option String) :=
  if wfExists then
    match lookupName "json_file_path" with
    | none => ([], Except.error "json_file_path")
    | some _ => ([Event.resultFileRead], Except.ok (some contents))
  else ([], Except.ok none)

/-- The flowcept persist step (source lines 279-281): when monitoring is
enabled the code evaluates `test_data_and_persist(rep_dir, wf_result,
job_output)`, resolving the name `wf_result`. -/
def persistRun (withFlowcept : Bool) : List Event × Except String Unit :=
  if withFlowcept then
    match lookupName "wf_result" with
    | none => ([], Except.error "wf_result")
    | some _ => ([Event.persistCall], Except.ok ())
  else ([], Except.ok ())

/-- The external inputs and environment of one call of `main`. `fileAt t`
is the existence of the scheduler announcement file at elapsed probe time
`t`; `clientRaises` tells whether `run_cmd_check_output` of the client
command throws; `wfResultFileExists` whether the client produced
`workflow_result.json` (with contents `wfResultContents`). -/
structure MainInputs where
  proj_dir : String
  my_job_id : String
  with_flowcept : Bool
  gpu_type : String
  nnodes : Nat
  n_gpus_per_node : Nat
  fileAt : Nat → Bool
  clientRaises : Bool
  wfResultFileExists : Bool
  wfResultContents : String

/-- One repetition: `main` (source lines 198-284) as a trace of external
effects plus an outcome.  The control flow mirrors the source: initial
kill of job steps, optional `start_flowcept`, `start_scheduler` with the
`return -1` short-circuit on probe failure, `start_workers_with_gpu`,
client invocation (whose exception propagates with no enclosing `try`),
`consumer.stop()` only when a consumer exists, result collection,
`generate_job_output`, the flowcept persist step, and the final kill. -/
def mainRun (i : MainInputs) (rep_no : Nat) : List Event × Outcome :=
  let rep_dir := i.proj_dir ++ "/exps/" ++ i.my_job_id ++ "/" ++ toString rep_no
  let monEv := if i.with_flowcept then [Event.monStart] else []
  let evs0 := Event.killAllSteps :: monEv
  match start_scheduler_run i.gpu_type i.fileAt with
  | (se, Except.error _) => (evs0 ++ se, Outcome.raisedValueError)
  | (se, Except.ok ready) =>
    if ready then
      match start_workers_run i.nnodes i.n_gpus_per_node i.gpu_type rep_dir with
      | (we, Except.error _) => (evs0 ++ se ++ we, Outcome.raisedValueError)
      | (we, Except.ok _plan) =>
        let evs1 := evs0 ++ se ++ we ++ [Event.clientInvoke]
        if i.clientRaises then (evs1, Outcome.raisedClientError)
        else
          let evs2 := evs1 ++ (if i.with_flowcept then [Event.monStop] else [])
          match resultCollectionRun i.wfResultFileExists i.wfResultContents with
          | (re, Except.error n) => (evs2 ++ re, Outcome.raisedNameError n)
          | (re, Except.ok _wr) =>
            let evs3 := evs2 ++ re ++ [Event.jobOutputWrite]
            match persistRun i.with_flowcept with
            | (pe, Except.error n) => (evs3 ++ pe, Outcome.raisedNameError n)
            | (pe, Except.ok _) =>
              (evs3 ++ pe ++ [Event.killAllSteps], Outcome.ok)
    else (evs0 ++ se, Outcome.failTimeout)

/-- Whether an outcome of `main` is a propagating Python exception (a
plain return, including the `-1` timeout return, is not). -/
def repRaised : Outcome → Bool
  | Outcome.ok => false
  | Outcome.failTimeout => false
  | _ => true

/-- The `for rep_no in range(nreps)` loop of the `__main__` block (source
lines 294-300): repetitions run in increasing order; an exception raised
inside `main` propagates out of the loop (there is no `try`), aborting
the remaining repetitions.  Returns the list of executed repetitions
(tagged with their `rep_no`) and whether the loop completed. -/
def runReps (inputsFor : Nat → MainInputs) : Nat → Nat → List (Nat × List Event × Outcome) × Bool
  | _rep_no, 0 => ([], true)
  | rep_no, k + 1 =>
    let r := mainRun (inputsFor rep_no) rep_no
    if repRaised r.2 then ([(rep_no, r)], false)
    else
      let rest := runReps inputsFor (rep_no + 1) k
      ((rep_no, r) :: rest.1, rest.2)

/-- The whole `__main__` block (source lines 288-310): run the repetition
loop, then write the SUCCESS marker file once — reached only if no
repetition raised.  The second component counts SUCCESS writes. -/
def driverRun (nreps : Nat) (inputsFor : Nat → MainInputs) :
    List (Nat × List Event × Outcome) × Nat :=
  let r := runReps inputsFor 0 nreps
  (r.1, if r.2 then 1 else 0)

/-- The fuel bound of `probeAux` is inessential: once the remaining fuel
already suffices to push `elapsed` past the budget, adding more fuel does
not change the result.  This justifies modelling the unbounded `while`
loop of the source with `55` units of fuel from `elapsed = 0`. -/
lemma probeAux_fuel_stable (ex : Nat → Bool) :
    ∀ fuel elapsed, total_wait_time < elapsed + wait_time * fuel →
      probeAux ex elapsed (fuel + 1) = probeAux ex elapsed fuel := by
  intro fuel
  induction fuel with
  | zero =>
    intro elapsed h
    have h1 : total_wait_time ≤ elapsed := by
      simp only [total_wait_time, wait_time] at h ⊢
      omega
    simp [probeAux, h1]
  | succ n ih =>
    intro elapsed h
    by_cases hc : (ex elapsed || decide (total_wait_time ≤ elapsed)) = true
    · conv_lhs => rw [probeAux]
      conv_rhs => rw [probeAux]
      rw [if_pos hc, if_pos hc]
    · conv_lhs => rw [probeAux]
      conv_rhs => rw [probeAux]
      rw [if_neg hc, if_neg hc]
      exact ih (elapsed + wait_time) (by simp only [total_wait_time, wait_time] at h ⊢; omega)

/-- Exact characterization of the readiness probe, by induction along the
loop: starting from a 3-divisible elapsed time `e ≤ 162` with exactly the
fuel needed to reach `165`, the final existence check succeeds iff the
file exists at some in-budget poll instant at or after `e`, or at the one
post-budget check instant `162`. -/
lemma probeAux_ex_iff (ex : Nat → Bool) :
    ∀ fuel elapsed, elapsed + wait_time * fuel = 165 → wait_time ∣ elapsed →
      elapsed ≤ 162 →
      (ex (probeAux ex elapsed fuel) = true ↔
        ((∃ k, elapsed ≤ 3 * k ∧ 3 * k < 160 ∧ ex (3 * k) = true) ∨ ex 162 = true)) := by
  intro fuel
  induction fuel with
  | zero =>
    intro elapsed hinv _ hle
    simp only [wait_time] at hinv
    omega
  | succ n ih =>
    intro elapsed hinv hdvd hle
    obtain ⟨d, hd⟩ := hdvd
    simp only [wait_time] at hinv hd
    simp only [probeAux]
    by_cases hex : ex elapsed = true
    · have hcond : (ex elapsed || decide (total_wait_time ≤ elapsed)) = true := by
        simp [hex]
      rw [if_pos hcond]
      constructor
      · intro _
        by_cases hlt : elapsed < 160
        · exact Or.inl ⟨d, by omega, by omega, by rw [show 3 * d = elapsed by omega]; exact hex⟩
        · have h162 : elapsed = 162 := by omega
          exact Or.inr (h162 ▸ hex)
      · intro _
        exact hex
    · by_cases hto : total_wait_time ≤ elapsed
      · have h162 : elapsed = 162 := by
          simp only [total_wait_time] at hto
          omega
        have hcond : (ex elapsed || decide (total_wait_time ≤ elapsed)) = true := by
          simp [hto]
        rw [if_pos hcond, h162]
        constructor
        · intro h
          exact Or.inr h
        · rintro (⟨k, hk1, hk2, _⟩ | h)
          · omega
          · exact h
      · have hcond : ¬ (ex elapsed || decide (total_wait_time ≤ elapsed)) = true := by
          simp [hex, hto]
        rw [if_neg hcond]
        have hlt : elapsed < 160 := by
          simp only [total_wait_time] at hto
          omega
        rw [ih (elapsed + wait_time) (by simp only [wait_time]; omega)
              ⟨d + 1, by simp only [wait_time]; omega⟩ (by simp only [wait_time]; omega)]
        constructor
        · rintro (⟨k, hk1, hk2, hk3⟩ | h)
          · exact Or.inl ⟨k, by simp only [wait_time] at hk1; omega, hk2, hk3⟩
          · exact Or.inr h
        · rintro (⟨k, hk1, hk2, hk3⟩ | h)
          · refine Or.inl ⟨k, ?_, hk2, hk3⟩
            have hne : 3 * k ≠ elapsed := by
              intro he
              rw [he] at hk3
              exact hex hk3
            simp only [wait_time]
            omega
          · exact Or.inr h

/-- C3 (amended): the waiting loop of `start_scheduler` returns `true`
iff the scheduler file exists at some poll instant (a multiple of the
fixed 3-second interval) strictly inside the 160-second budget, or at the
single final existence check performed after the loop exits, which
happens at elapsed time 162 — one poll interval past the budget.  In
particular the probe is a total function (never raises) and a file that
first appears between 160 and 162 seconds is still reported as found. -/
theorem awaitReady_iff (ex : Nat → Bool) :
    awaitReady ex = true ↔
      ((∃ k, 3 * k < 160 ∧ ex (3 * k) = true) ∨ ex 162 = true) := by
  have h := probeAux_ex_iff ex 55 0 (by simp [wait_time]) ⟨0, by simp⟩ (by omega)
  rw [awaitReady, h]
  constructor
  · rintro (⟨k, _, hk2, hk3⟩ | h)
    · exact Or.inl ⟨k, hk2, hk3⟩
    · exact Or.inr h
  · rintro (⟨k, hk2, hk3⟩ | h)
    · exact Or.inl ⟨k, Nat.zero_le _, hk2, hk3⟩
    · exact Or.inr h

/-- A scheduler file that first appears at elapsed time 161 — after the
160-second budget has elapsed. -/
def lateFile : Nat → Bool := fun t => decide (161 ≤ t)

/-- C3 (counterexample): the claim "the probe returns true if and only if
the scheduler-announcement file exists within the 160-second budget, and
makes no further polling attempt after the timeout elapses" is false: for
a file first appearing at 161 seconds the probe's post-loop existence
check (at elapsed time 162) still sees the file and `start_scheduler`
reports success, although the file did not exist at any time within the
budget. -/
theorem awaitReady_counterexample :
    awaitReady lateFile = true ∧ ∀ t, t ≤ total_wait_time → lateFile t = false := by
  constructor
  · rw [awaitReady_iff]
    exact Or.inr (by decide)
  · intro t ht
    simp only [lateFile, total_wait_time] at ht ⊢
    simp
    omega

/-- The nested node/GPU loops enumerate descriptors in node-major,
GPU-minor order: the flattened plan is index `k ↦ (node k / m, gpu k % m)`. -/
lemma workerPlan_eq_map (n m : Nat) (envVar rep_dir : String) :
    workerPlan n m envVar rep_dir =
      (List.range (n * m)).map
        (fun k => mkWorkerDescriptor envVar rep_dir (k / m) (k % m)) := by
  induction n with
  | zero => simp [workerPlan]
  | succ n ih =>
    have step : workerPlan (n + 1) m envVar rep_dir
        = workerPlan n m envVar rep_dir
          ++ (List.range m).map (fun j => mkWorkerDescriptor envVar rep_dir n j) := by
      rw [workerPlan, workerPlan, List.range_succ, List.flatMap_append]
      simp [List.flatMap_cons]
    rw [step, ih, Nat.succ_mul, List.range_add, List.map_append, List.map_map]
    congr 1
    apply List.map_congr_left
    intro j hj
    have hjm : j < m := List.mem_range.mp hj
    have hm : 0 < m := Nat.lt_of_le_of_lt (Nat.zero_le j) hjm
    have hdiv : (n * m + j) / m = n := by
      rw [Nat.add_comm, Nat.add_mul_div_right _ _ hm, Nat.div_eq_of_lt hjm, Nat.zero_add]
    have hmod : (n * m + j) % m = j := by
      rw [Nat.add_comm, Nat.add_mul_mod_self_right, Nat.mod_eq_of_lt hjm]
    simp only [Function.comp_apply]
    rw [hdiv, hmod]

/-- C4: for `nodeCount ≥ 1` and `gpusPerNode ≥ 1` the launch plan built
by `start_workers_with_gpu` has exactly `nodeCount * gpusPerNode`
descriptors; each descriptor makes visible exactly the one device index
`gpu < gpusPerNode` (the `export VAR={j}` assignment); and descriptors
are ordered node-major, GPU-minor: the entry at flat index `i * m + j` is
the descriptor of node `i`, GPU `j`. -/
theorem workerPlan_spec (n m : Nat) (envVar rep_dir : String)
    (hn : 1 ≤ n) (hm : 1 ≤ m) :
    (workerPlan n m envVar rep_dir).length = n * m ∧
    (∀ d ∈ workerPlan n m envVar rep_dir,
        d.visibleDevices = [d.gpu] ∧ d.gpu < m ∧ d.node < n) ∧
    (∀ i j, i < n → j < m →
        (workerPlan n m envVar rep_dir)[i * m + j]? =
          some (mkWorkerDescriptor envVar rep_dir i j)) := by
  have hmap := workerPlan_eq_map n m envVar rep_dir
  refine ⟨?_, ?_, ?_⟩
  · rw [hmap, List.length_map, List.length_range]
  · intro d hd
    rw [hmap] at hd
    obtain ⟨k, hk, hdk⟩ := List.mem_map.mp hd
    have hkr : k < n * m := List.mem_range.mp hk
    subst hdk
    refine ⟨rfl, ?_, ?_⟩
    · exact Nat.mod_lt _ hm
    · exact Nat.div_lt_of_lt_mul (by rw [Nat.mul_comm]; exact hkr)
  · intro i j hi hj
    have hk : i * m + j < n * m := by
      calc i * m + j < i * m + m := by omega
        _ = (i + 1) * m := by ring
        _ ≤ n * m := Nat.mul_le_mul_right m hi
    rw [hmap, List.getElem?_map, List.getElem?_range hk, Option.map_some']
    have hdiv : (i * m + j) / m = i := by
      rw [Nat.add_comm, Nat.add_mul_div_right _ _ hm, Nat.div_eq_of_lt hj, Nat.zero_add]
    have hmod : (i * m + j) % m = j := by
      rw [Nat.add_comm, Nat.add_mul_mod_self_right, Nat.mod_eq_of_lt hj]
    rw [hdiv, hmod]

/-- C4 (witness): the plan for scenario A (`nodeCount = 2`,
`gpusPerNode = 4`, NVIDIA) instantiates the plan invariants. -/
theorem workerPlan_spec_witness :
    (workerPlan 2 4 "CUDA_VISIBLE_DEVICES" "/rep").length = 2 * 4 ∧
    (∀ d ∈ workerPlan 2 4 "CUDA_VISIBLE_DEVICES" "/rep",
        d.visibleDevices = [d.gpu] ∧ d.gpu < 4 ∧ d.node < 2) ∧
    (∀ i j, i < 2 → j < 4 →
        (workerPlan 2 4 "CUDA_VISIBLE_DEVICES" "/rep")[i * 4 + j]? =
          some (mkWorkerDescriptor "CUDA_VISIBLE_DEVICES" "/rep" i j)) :=
  workerPlan_spec 2 4 "CUDA_VISIBLE_DEVICES" "/rep" (by decide) (by decide)

lemma vendorOkB_iff (g : String) : vendorOkB g = true ↔ g = "amd" ∨ g = "nvidia" := by
  simp [vendorOkB]

lemma start_scheduler_run_amd (ex : Nat → Bool) :
    start_scheduler_run "amd" ex = ([Event.schedulerSubmit], Except.ok (awaitReady ex)) := by
  simp [start_scheduler_run, schedulerVisibleDevice]

lemma start_scheduler_run_nvidia (ex : Nat → Bool) :
    start_scheduler_run "nvidia" ex = ([Event.schedulerSubmit], Except.ok (awaitReady ex)) := by
  simp [start_scheduler_run, schedulerVisibleDevice]

lemma start_scheduler_run_bad (g : String) (ex : Nat → Bool) (h : vendorOkB g = false) :
    start_scheduler_run g ex = ([], Except.error "Unknown gpu") := by
  have h1 : ¬ g = "amd" := by
    intro e
    subst e
    simp [vendorOkB] at h
  have h2 : ¬ g = "nvidia" := by
    intro e
    subst e
    simp [vendorOkB] at h
  simp [start_scheduler_run, schedulerVisibleDevice, h1, h2]

lemma start_workers_run_amd (n m : Nat) (rep_dir : String) :
    start_workers_run n m "amd" rep_dir =
      ((List.range n).map Event.workerSubmit,
        Except.ok (workerPlan n m "ROCR_VISIBLE_DEVICES" rep_dir)) := by
  simp [start_workers_run, workerVisibleDevice]

lemma start_workers_run_nvidia (n m : Nat) (rep_dir : String) :
    start_workers_run n m "nvidia" rep_dir =
      ((List.range n).map Event.workerSubmit,
        Except.ok (workerPlan n m "CUDA_VISIBLE_DEVICES" rep_dir)) := by
  simp [start_workers_run, workerVisibleDevice]

lemma start_workers_run_bad (n m : Nat) (g rep_dir : String) (h : vendorOkB g = false) :
    start_workers_run n m g rep_dir = ([], Except.error "Unknown gpu") := by
  have h1 : ¬ g = "amd" := by
    intro e
    subst e
    simp [vendorOkB] at h
  have h2 : ¬ g = "nvidia" := by
    intro e
    subst e
    simp [vendorOkB] at h
  simp [start_workers_run, workerVisibleDevice, h1, h2]

/-- C5: the vendor tag `"amd"` selects `ROCR_VISIBLE_DEVICES` and
`"nvidia"` selects `CUDA_VISIBLE_DEVICES`, both in the scheduler-launch
branch and in worker planning (where every descriptor carries the chosen
variable); for any other tag both branches produce the
`ValueError("Unknown gpu")` and no cluster submission event is emitted —
the submission trace of either step is empty exactly when the vendor tag
is unrecognized. -/
theorem vendorVisibility_spec (g : String) (ex : Nat → Bool) (n m : Nat) (rep_dir : String) :
    schedulerVisibleDevice "amd" = Except.ok "export ROCR_VISIBLE_DEVICES=\x27\x27" ∧
    schedulerVisibleDevice "nvidia" = Except.ok "export CUDA_VISIBLE_DEVICES=\x27\x27" ∧
    workerVisibleDevice "amd" = Except.ok "ROCR_VISIBLE_DEVICES" ∧
    workerVisibleDevice "nvidia" = Except.ok "CUDA_VISIBLE_DEVICES" ∧
    (start_workers_run n m "amd" rep_dir).2 =
      Except.ok (workerPlan n m "ROCR_VISIBLE_DEVICES" rep_dir) ∧
    (start_workers_run n m "nvidia" rep_dir).2 =
      Except.ok (workerPlan n m "CUDA_VISIBLE_DEVICES" rep_dir) ∧
    (schedulerVisibleDevice g).isOk = vendorOkB g ∧
    (workerVisibleDevice g).isOk = vendorOkB g ∧
    (start_scheduler_run g ex).1 =
      (if vendorOkB g then [Event.schedulerSubmit] else []) ∧
    (start_workers_run n m g rep_dir).1 =
      (if vendorOkB g then (List.range n).map Event.workerSubmit else []) := by
  refine ⟨by simp [schedulerVisibleDevice], by simp [schedulerVisibleDevice],
    by simp [workerVisibleDevice], by simp [workerVisibleDevice],
    by rw [start_workers_run_amd], by rw [start_workers_run_nvidia], ?_, ?_, ?_, ?_⟩
  · by_cases hv : vendorOkB g = true
    · rcases (vendorOkB_iff g).mp hv with he | he <;> subst he <;>
        simp [schedulerVisibleDevice, vendorOkB, Except.isOk, Except.toBool]
    · have hv' : vendorOkB g = false := by
        revert hv
        cases vendorOkB g <;> simp
      rw [hv']
      rcases (vendorOkB_iff g).not.mp (by simp [hv']) with h
      push_neg at h
      simp [schedulerVisibleDevice, h.1, h.2, Except.isOk, Except.toBool]
  · by_cases hv : vendorOkB g = true
    · rcases (vendorOkB_iff g).mp hv with he | he <;> subst he <;>
        simp [workerVisibleDevice, vendorOkB, Except.isOk, Except.toBool]
    · have hv' : vendorOkB g = false := by
        revert hv
        cases vendorOkB g <;> simp
      rw [hv']
      rcases (vendorOkB_iff g).not.mp (by simp [hv']) with h
      push_neg at h
      simp [workerVisibleDevice, h.1, h.2, Except.isOk, Except.toBool]
  · by_cases hv : vendorOkB g = true
    · rcases (vendorOkB_iff g).mp hv with he | he <;> subst he
      · rw [start_scheduler_run_amd, if_pos hv]
      · rw [start_scheduler_run_nvidia, if_pos hv]
    · have hv' : vendorOkB g = false := by
        revert hv
        cases vendorOkB g <;> simp
      rw [start_scheduler_run_bad g ex hv', hv']
      simp
  · by_cases hv : vendorOkB g = true
    · rcases (vendorOkB_iff g).mp hv with he | he <;> subst he
      · rw [start_workers_run_amd, if_pos hv]
      · rw [start_workers_run_nvidia, if_pos hv]
    · have hv' : vendorOkB g = false := by
        revert hv
        cases vendorOkB g <;> simp
      rw [start_workers_run_bad n m g rep_dir hv', hv']
      simp

lemma awaitReady_const_true : awaitReady (fun _ => true) = true := by
  rw [awaitReady_iff]
  exact Or.inr rfl

lemma awaitReady_const_false : awaitReady (fun _ => false) = false := by
  by_contra h
  have h' : awaitReady (fun _ => false) = true := by
    revert h
    cases awaitReady (fun _ => false) <;> simp
  rw [awaitReady_iff] at h'
  simp at h'

/-- `json_file_path` is not bound anywhere in `main`. -/
@[simp] lemma lookupName_json_file_path : lookupName "json_file_path" = none := by decide

/-- `wf_result` is not bound anywhere in `main`. -/
@[simp] lemma lookupName_wf_result : lookupName "wf_result" = none := by decide

@[simp] lemma resultCollectionRun_true (c : String) :
    resultCollectionRun true c = ([], Except.error "json_file_path") := by
  simp [resultCollectionRun]

@[simp] lemma resultCollectionRun_false (c : String) :
    resultCollectionRun false c = ([], Except.ok none) := rfl

@[simp] lemma persistRun_true : persistRun true = ([], Except.error "wf_result") := by
  simp [persistRun]

@[simp] lemma persistRun_false : persistRun false = ([], Except.ok ()) := rfl

/-- C2: when the scheduler announcement file never satisfies the probe,
`main` returns the failure status (`return -1`) and its effect trace
contains no worker submission and no client invocation: all later stages
of the repetition are skipped. -/
theorem schedulerTimeout_shortCircuit (i : MainInputs) (rep_no : Nat)
    (hv : vendorOkB i.gpu_type = true) (hr : awaitReady i.fileAt = false) :
    (mainRun i rep_no).2 = Outcome.failTimeout ∧
    (∀ n, Event.workerSubmit n ∉ (mainRun i rep_no).1) ∧
    Event.clientInvoke ∉ (mainRun i rep_no).1 := by
  rcases (vendorOkB_iff _).mp hv with he | he <;>
    cases hf : i.with_flowcept <;>
      simp [mainRun, he, hf, hr, start_scheduler_run_amd, start_scheduler_run_nvidia]

/-- Inputs of a repetition whose scheduler file never appears
(monitoring disabled, valid AMD vendor tag). -/
def timeoutInputs : MainInputs :=
  { proj_dir := "/proj"
    my_job_id := "job1"
    with_flowcept := false
    gpu_type := "amd"
    nnodes := 2
    n_gpus_per_node := 4
    fileAt := fun _ => false
    clientRaises := false
    wfResultFileExists := false
    wfResultContents := "" }

/-- C2 (witness): the short-circuit theorem at a concrete repetition. -/
theorem schedulerTimeout_shortCircuit_witness :
    (mainRun timeoutInputs 0).2 = Outcome.failTimeout ∧
    (∀ n, Event.workerSubmit n ∉ (mainRun timeoutInputs 0).1) ∧
    Event.clientInvoke ∉ (mainRun timeoutInputs 0).1 :=
  schedulerTimeout_shortCircuit timeoutInputs 0 (by decide) awaitReady_const_false

/-- Inputs of a monitoring-enabled repetition whose scheduler file never
appears. -/
def monTimeoutInputs : MainInputs :=
  { proj_dir := "/proj"
    my_job_id := "job1"
    with_flowcept := true
    gpu_type := "nvidia"
    nnodes := 2
    n_gpus_per_node := 4
    fileAt := fun _ => false
    clientRaises := false
    wfResultFileExists := false
    wfResultContents := "" }

/-- C1 (counterexample): the claim "a started monitoring consumer is
stopped on every exit path of the repetition" is false: on the
scheduler-readiness-timeout exit the consumer has been started
(`monStart` is in the trace) but `consumer.stop()` is never invoked
(`monStop` is not in the trace) although the repetition completes with
its failure status.  There is no `try/finally` around the monitored
region in `main`. -/
theorem monStop_counterexample :
    Event.monStart ∈ (mainRun monTimeoutInputs 0).1 ∧
    Event.monStop ∉ (mainRun monTimeoutInputs 0).1 ∧
    (mainRun monTimeoutInputs 0).2 = Outcome.failTimeout := by
  simp [mainRun, monTimeoutInputs, awaitReady_const_false, start_scheduler_run_nvidia]

/-- C1 (amended): `consumer.stop()` runs iff the repetition was
monitoring-enabled, had a recognized vendor tag, saw the scheduler become
ready, and the client invocation returned without raising; on the
scheduler-timeout, unknown-vendor, and client-exception exit paths a
started consumer is never stopped. -/
theorem monStop_iff (i : MainInputs) (rep_no : Nat) :
    Event.monStop ∈ (mainRun i rep_no).1 ↔
      (i.with_flowcept = true ∧ vendorOkB i.gpu_type = true ∧
        awaitReady i.fileAt = true ∧ i.clientRaises = false) := by
  by_cases hv : vendorOkB i.gpu_type = true
  · rcases (vendorOkB_iff _).mp hv with he | he <;>
      cases hf : i.with_flowcept <;>
        cases hready : awaitReady i.fileAt <;>
          cases hc : i.clientRaises <;>
            cases hwf : i.wfResultFileExists <;>
              simp [mainRun, he, hf, hready, hc, hwf, vendorOkB,
                start_scheduler_run_amd, start_scheduler_run_nvidia,
                start_workers_run_amd, start_workers_run_nvidia]
  · have hv' : vendorOkB i.gpu_type = false := by
      revert hv
      cases vendorOkB i.gpu_type <;> simp
    cases hf : i.with_flowcept <;>
      simp [mainRun, hf, hv', start_scheduler_run_bad i.gpu_type i.fileAt hv']

@[simp] lemma count_killAll_workerSubmits (n : Nat) :
    List.count Event.killAllSteps ((List.range n).map Event.workerSubmit) = 0 := by
  rw [List.count_eq_zero]
  simp

/-- C10: a monitoring-enabled repetition that reaches the persist step
(source line 281) references the name `wf_result`, which is bound nowhere
in `main`, so the repetition raises `NameError` and never reaches the
final `kill_all_running_job_steps` (the trace contains only the initial
kill); consequently no monitoring-enabled repetition whose client stage
succeeds can finish with the normal outcome. -/
theorem flowcept_persist_nameError (i : MainInputs) (rep_no : Nat)
    (hf : i.with_flowcept = true) (hv : vendorOkB i.gpu_type = true)
    (hready : awaitReady i.fileAt = true) (hc : i.clientRaises = false) :
    lookupName "wf_result" = none ∧
    (mainRun i rep_no).2 ≠ Outcome.ok ∧
    (i.wfResultFileExists = false →
      (mainRun i rep_no).2 = Outcome.raisedNameError "wf_result" ∧
      (mainRun i rep_no).1.count Event.killAllSteps = 1) := by
  refine ⟨by decide, ?_, ?_⟩ <;>
    rcases (vendorOkB_iff _).mp hv with he | he <;>
      cases hwf : i.wfResultFileExists <;>
        simp [mainRun, he, hf, hready, hc, hwf,
          start_scheduler_run_amd, start_scheduler_run_nvidia,
          start_workers_run_amd, start_workers_run_nvidia,
          List.count_cons, List.count_append]

/-- Inputs of a monitoring-enabled repetition in which the scheduler is
ready at once, the client succeeds, and no result file is produced. -/
def monOkInputs : MainInputs :=
  { proj_dir := "/proj"
    my_job_id := "job1"
    with_flowcept := true
    gpu_type := "nvidia"
    nnodes := 2
    n_gpus_per_node := 4
    fileAt := fun _ => true
    clientRaises := false
    wfResultFileExists := false
    wfResultContents := "" }

/-- C10 (witness): the `wf_result` `NameError` at a concrete
monitoring-enabled repetition. -/
theorem flowcept_persist_nameError_witness :
    lookupName "wf_result" = none ∧
    (mainRun monOkInputs 0).2 ≠ Outcome.ok ∧
    (monOkInputs.wfResultFileExists = false →
      (mainRun monOkInputs 0).2 = Outcome.raisedNameError "wf_result" ∧
      (mainRun monOkInputs 0).1.count Event.killAllSteps = 1) :=
  flowcept_persist_nameError monOkInputs 0 rfl (by decide) awaitReady_const_true rfl

/-- Inputs of a monitoring-free repetition where everything external
succeeds and no client result file is produced. -/
def noMonAbsentInputs : MainInputs :=
  { proj_dir := "/proj"
    my_job_id := "job1"
    with_flowcept := false
    gpu_type := "amd"
    nnodes := 1
    n_gpus_per_node := 1
    fileAt := fun _ => true
    clientRaises := false
    wfResultFileExists := false
    wfResultContents := "" }

/-- The same repetition, but the client did produce
`workflow_result.json`. -/
def noMonPresentInputs : MainInputs :=
  { noMonAbsentInputs with wfResultFileExists := true, wfResultContents := "42" }

/-- C7: result collection tolerates the absent result file — with
`workflow_result.json` missing the repetition maps the result to `None`,
still assembles and writes the final record, and ends normally.  But
when the file IS present the code evaluates `open(json_file_path, ...)`
with `json_file_path` bound nowhere in `main` (source line 254; the path
just built on line 251 is named `workflow_result_file`), so instead of
parsing the file the repetition dies with `NameError`. -/
theorem resultCollection_code_bug :
    lookupName "json_file_path" = none ∧
    resultCollectionRun false "42" = ([], Except.ok none) ∧
    resultCollectionRun true "42" = ([], Except.error "json_file_path") ∧
    (mainRun noMonAbsentInputs 0).2 = Outcome.ok ∧
    Event.jobOutputWrite ∈ (mainRun noMonAbsentInputs 0).1 ∧
    (mainRun noMonPresentInputs 0).2 = Outcome.raisedNameError "json_file_path" := by
  have hr : awaitReady (fun _ => true) = true := awaitReady_const_true
  refine ⟨by decide, rfl, by simp, ?_, ?_, ?_⟩ <;>
    simp [mainRun, noMonAbsentInputs, noMonPresentInputs, hr, start_scheduler_run_amd,
      start_workers_run_amd]

/-- Event classes used by the ordering guarantees. -/
def isSched : Event → Bool
  | Event.schedulerSubmit => true
  | _ => false

/-- Worker-submission events. -/
def isWorker : Event → Bool
  | Event.workerSubmit _ => true
  | _ => false

/-- Client-invocation events. -/
def isClient : Event → Bool
  | Event.clientInvoke => true
  | _ => false

/-- Monitoring-stop and result-collection events. -/
def isStopOrCollect : Event → Bool
  | Event.monStop => true
  | Event.resultFileRead => true
  | Event.jobOutputWrite => true
  | _ => false

/-- Every `P`-event in the trace occurs strictly before every `Q`-event. -/
def StrictlyPrecedes (t : List Event) (P Q : Event → Bool) : Prop :=
  ∀ i j, ∀ (hi : i < t.length) (hj : j < t.length),
    P (t.get ⟨i, hi⟩) = true → Q (t.get ⟨j, hj⟩) = true → i < j

lemma strictlyPrecedes_append (t₁ t₂ : List Event) (P Q : Event → Bool)
    (hP : ∀ x ∈ t₂, P x = false) (hQ : ∀ x ∈ t₁, Q x = false) :
    StrictlyPrecedes (t₁ ++ t₂) P Q := by
  intro i j hi hj hPi hQj
  simp only [List.get_eq_getElem] at hPi hQj
  have hilen : i < t₁.length := by
    by_contra hcon
    push_neg at hcon
    rw [List.getElem_append_right hcon] at hPi
    rw [hP _ (List.getElem_mem _)] at hPi
    exact Bool.false_ne_true hPi
  have hjlen : t₁.length ≤ j := by
    by_contra hcon
    push_neg at hcon
    rw [List.getElem_append_left hcon] at hQj
    rw [hQ _ (List.getElem_mem _)] at hQj
    exact Bool.false_ne_true hQj
  omega

/-- Events that can occur before the scheduler submission. -/
def PreEvent (x : Event) : Prop :=
  x = Event.killAllSteps ∨ x = Event.monStart

/-- Events that can occur after the client invocation. -/
def PostEvent (x : Event) : Prop :=
  x = Event.monStop ∨ x = Event.resultFileRead ∨ x = Event.jobOutputWrite ∨
    x = Event.persistCall ∨ x = Event.killAllSteps

/-- The trace of every repetition decomposes into five segments:
pre-scheduler effects, at most one scheduler submission, worker
submissions, at most one client invocation, and post-client effects. -/
lemma mainRun_shape (i : MainInputs) (rep_no : Nat) :
    ∃ a b c d e,
      (mainRun i rep_no).1 = a ++ b ++ c ++ d ++ e ∧
      (∀ x ∈ a, PreEvent x) ∧
      (b = [] ∨ b = [Event.schedulerSubmit]) ∧
      (∀ x ∈ c, isWorker x = true) ∧
      (d = [] ∨ d = [Event.clientInvoke]) ∧
      (∀ x ∈ e, PostEvent x) := by
  have hpre : ∀ x ∈ Event.killAllSteps ::
      (if i.with_flowcept then [Event.monStart] else []), PreEvent x := by
    intro x hx
    cases hf : i.with_flowcept <;> rw [hf] at hx <;> simp at hx
    · exact Or.inl hx
    · rcases hx with h | h
      · exact Or.inl h
      · exact Or.inr h
  have hwork : ∀ x ∈ (List.range i.nnodes).map Event.workerSubmit, isWorker x = true := by
    intro x hx
    obtain ⟨n, _, rfl⟩ := List.mem_map.mp hx
    rfl
  have hstop : ∀ x ∈ (if i.with_flowcept then [Event.monStop] else []), PostEvent x := by
    intro x hx
    cases hf : i.with_flowcept <;> rw [hf] at hx <;> simp at hx
    exact Or.inl hx
  by_cases hv : vendorOkB i.gpu_type = true
  · rcases (vendorOkB_iff _).mp hv with he | he <;>
    · cases hready : awaitReady i.fileAt
      · refine ⟨Event.killAllSteps :: (if i.with_flowcept then [Event.monStart] else []),
          [Event.schedulerSubmit], [], [], [],
          ?_, hpre, Or.inr rfl, by simp, Or.inl rfl, by simp⟩
        simp [mainRun, he, hready, start_scheduler_run_amd, start_scheduler_run_nvidia]
      · cases hc : i.clientRaises
        · cases hwf : i.wfResultFileExists
          · cases hf : i.with_flowcept
            · refine ⟨Event.killAllSteps :: (if i.with_flowcept then [Event.monStart] else []),
                [Event.schedulerSubmit], (List.range i.nnodes).map Event.workerSubmit,
                [Event.clientInvoke],
                (if i.with_flowcept then [Event.monStop] else []) ++
                  [Event.jobOutputWrite, Event.killAllSteps],
                ?_, hpre, Or.inr rfl, hwork, Or.inr rfl, ?_⟩
              · simp [mainRun, he, hready, hc, hwf, hf,
                  start_scheduler_run_amd, start_scheduler_run_nvidia,
                  start_workers_run_amd, start_workers_run_nvidia]
              · intro x hx
                rcases List.mem_append.mp hx with h | h
                · exact hstop x h
                · simp at h
                  rcases h with h | h
                  · exact Or.inr (Or.inr (Or.inl h))
                  · exact Or.inr (Or.inr (Or.inr (Or.inr h)))
            · refine ⟨Event.killAllSteps :: (if i.with_flowcept then [Event.monStart] else []),
                [Event.schedulerSubmit], (List.range i.nnodes).map Event.workerSubmit,
                [Event.clientInvoke],
                (if i.with_flowcept then [Event.monStop] else []) ++ [Event.jobOutputWrite],
                ?_, hpre, Or.inr rfl, hwork, Or.inr rfl, ?_⟩
              · simp [mainRun, he, hready, hc, hwf, hf,
                  start_scheduler_run_amd, start_scheduler_run_nvidia,
                  start_workers_run_amd, start_workers_run_nvidia]
              · intro x hx
                rcases List.mem_append.mp hx with h | h
                · exact hstop x h
                · simp at h
                  exact Or.inr (Or.inr (Or.inl h))
          · refine ⟨Event.killAllSteps :: (if i.with_flowcept then [Event.monStart] else []),
              [Event.schedulerSubmit], (List.range i.nnodes).map Event.workerSubmit,
              [Event.clientInvoke],
              (if i.with_flowcept then [Event.monStop] else []),
              ?_, hpre, Or.inr rfl, hwork, Or.inr rfl, hstop⟩
            cases hf : i.with_flowcept <;>
              simp [mainRun, he, hready, hc, hwf, hf,
                start_scheduler_run_amd, start_scheduler_run_nvidia,
                start_workers_run_amd, start_workers_run_nvidia]
        · refine ⟨Event.killAllSteps :: (if i.with_flowcept then [Event.monStart] else []),
            [Event.schedulerSubmit], (List.range i.nnodes).map Event.workerSubmit,
            [Event.clientInvoke], [],
            ?_, hpre, Or.inr rfl, hwork, Or.inr rfl, by simp⟩
          simp [mainRun, he, hready, hc,
            start_scheduler_run_amd, start_scheduler_run_nvidia,
            start_workers_run_amd, start_workers_run_nvidia]
  · have hv' : vendorOkB i.gpu_type = false := by
      revert hv
      cases vendorOkB i.gpu_type <;> simp
    refine ⟨Event.killAllSteps :: (if i.with_flowcept then [Event.monStart] else []),
      [], [], [], [], ?_, hpre, Or.inl rfl, by simp, Or.inl rfl, by simp⟩
    simp [mainRun, start_scheduler_run_bad i.gpu_type i.fileAt hv']

lemma preEvent_classes {x : Event} (h : PreEvent x) :
    isSched x = false ∧ isWorker x = false ∧ isClient x = false ∧
      isStopOrCollect x = false := by
  rcases h with h | h <;> subst h <;> exact ⟨rfl, rfl, rfl, rfl⟩

lemma postEvent_classes {x : Event} (h : PostEvent x) :
    isSched x = false ∧ isWorker x = false ∧ isClient x = false := by
  rcases h with h | h | h | h | h <;> subst h <;> exact ⟨rfl, rfl, rfl⟩

lemma isWorker_classes {x : Event} (h : isWorker x = true) :
    isSched x = false ∧ isClient x = false ∧ isStopOrCollect x = false := by
  cases x <;> simp [isWorker] at h <;> exact ⟨rfl, rfl, rfl⟩

/-- C8: in every repetition the scheduler submission strictly precedes
every worker submission, every worker submission strictly precedes the
client invocation, and the client invocation strictly precedes the
monitoring stop and all result-collection effects; moreover worker or
client events occur only when the readiness probe confirmed the scheduler
file (the conjunction "some worker/client event occurred and the probe
failed" is impossible). -/
theorem ordering_spec (i : MainInputs) (rep_no : Nat) :
    StrictlyPrecedes (mainRun i rep_no).1 isSched isWorker ∧
    StrictlyPrecedes (mainRun i rep_no).1 isWorker isClient ∧
    StrictlyPrecedes (mainRun i rep_no).1 isClient isStopOrCollect ∧
    ((mainRun i rep_no).1.any (fun x => isWorker x || isClient x)
        && !(awaitReady i.fileAt)) = false := by
  obtain ⟨a, b, c, d, e, htr, ha, hb, hc, hd, he⟩ := mainRun_shape i rep_no
  have hbS : ∀ x ∈ b, x = Event.schedulerSubmit := by
    rcases hb with h | h <;> subst h <;> simp
  have hdC : ∀ x ∈ d, x = Event.clientInvoke := by
    rcases hd with h | h <;> subst h <;> simp
  refine ⟨?_, ?_, ?_, ?_⟩
  · have h1 : (mainRun i rep_no).1 = (a ++ b) ++ (c ++ (d ++ e)) := by
      rw [htr]
      simp [List.append_assoc]
    rw [h1]
    apply strictlyPrecedes_append
    · intro x hx
      rcases List.mem_append.mp hx with h | h
      · exact (isWorker_classes (hc x h)).1
      · rcases List.mem_append.mp h with h | h
        · rw [hdC x h]
          rfl
        · exact (postEvent_classes (he x h)).1
    · intro x hx
      rcases List.mem_append.mp hx with h | h
      · exact (preEvent_classes (ha x h)).2.1
      · rw [hbS x h]
        rfl
  · have h1 : (mainRun i rep_no).1 = (a ++ b ++ c) ++ (d ++ e) := by
      rw [htr]
      simp [List.append_assoc]
    rw [h1]
    apply strictlyPrecedes_append
    · intro x hx
      rcases List.mem_append.mp hx with h | h
      · rw [hdC x h]
        rfl
      · exact (postEvent_classes (he x h)).2.1
    · intro x hx
      rcases List.mem_append.mp hx with h | h
      · rcases List.mem_append.mp h with h | h
        · exact (preEvent_classes (ha x h)).2.2.1
        · rw [hbS x h]
          rfl
      · exact (isWorker_classes (hc x h)).2.1
  · have h1 : (mainRun i rep_no).1 = (a ++ b ++ c ++ d) ++ e := by
      rw [htr]
    rw [h1]
    apply strictlyPrecedes_append
    · intro x hx
      exact (postEvent_classes (he x hx)).2.2
    · intro x hx
      rcases List.mem_append.mp hx with h | h
      · rcases List.mem_append.mp h with h | h
        · rcases List.mem_append.mp h with h | h
          · exact (preEvent_classes (ha x h)).2.2.2
          · rw [hbS x h]
            rfl
        · exact (isWorker_classes (hc x h)).2.2
      · rw [hdC x h]
        rfl
  · cases hready : awaitReady i.fileAt
    · rw [Bool.and_eq_false_iff]
      left
      rw [List.any_eq_false]
      by_cases hv : vendorOkB i.gpu_type = true
      · rcases (vendorOkB_iff _).mp hv with hg | hg <;>
          cases hf : i.with_flowcept <;>
            simp [mainRun, hg, hf, hready,
              start_scheduler_run_amd, start_scheduler_run_nvidia, isWorker, isClient]
      · have hv' : vendorOkB i.gpu_type = false := by
          revert hv
          cases vendorOkB i.gpu_type <;> simp
        cases hf : i.with_flowcept <;>
          simp [mainRun, hf, start_scheduler_run_bad i.gpu_type i.fileAt hv',
            isWorker, isClient]
    · simp

lemma mainRun_timeoutInputs (n : Nat) :
    (mainRun timeoutInputs n).2 = Outcome.failTimeout := by
  simp [mainRun, timeoutInputs, awaitReady_const_false, start_scheduler_run_amd]

/-- When no executed repetition raises, the loop runs them all, in
order. -/
lemma runReps_no_raise (f : Nat → MainInputs) :
    ∀ k s, (∀ n, s ≤ n → n < s + k → repRaised (mainRun (f n) n).2 = false) →
      runReps f s k = ((List.range' s k).map (fun n => (n, mainRun (f n) n)), true) := by
  intro k
  induction k with
  | zero =>
    intro s _
    simp [runReps]
  | succ k ih =>
    intro s h
    have h0 : repRaised (mainRun (f s) s).2 = false := h s (Nat.le_refl s) (by omega)
    rw [runReps, if_neg (by rw [h0]; exact Bool.false_ne_true)]
    rw [ih (s + 1) (fun n h1 h2 => h n (by omega) (by omega))]
    rw [List.range'_succ]
    simp

/-- C9 (amended): repetitions run in increasing order; a repetition that
fails by returning the timeout failure status does not prevent later
repetitions (its outcome is not a raise), and when no repetition raises,
exactly `nreps` repetitions execute, in order, and the SUCCESS marker is
written exactly once afterwards.  (A repetition aborted by a raised
error, by contrast, terminates the whole job — see the counterexample.) -/
theorem driver_spec (nreps : Nat) (f : Nat → MainInputs)
    (h : ∀ n, n < nreps → repRaised (mainRun (f n) n).2 = false) :
    (driverRun nreps f).1 = (List.range nreps).map (fun n => (n, mainRun (f n) n)) ∧
    (driverRun nreps f).2 = 1 ∧
    repRaised Outcome.failTimeout = false := by
  have hr := runReps_no_raise f nreps 0 (fun n h1 h2 => h n (by omega))
  refine ⟨?_, ?_, rfl⟩
  · rw [driverRun, hr]
    rw [List.range_eq_range']
  · rw [driverRun, hr]
    simp

/-- C9 (witness): a job of two repetitions, both failing with the
scheduler timeout: both still run, in order, and SUCCESS is written
once. -/
theorem driver_spec_witness :
    (driverRun 2 (fun _ => timeoutInputs)).1 =
      (List.range 2).map (fun n => (n, mainRun timeoutInputs n)) ∧
    (driverRun 2 (fun _ => timeoutInputs)).2 = 1 ∧
    repRaised Outcome.failTimeout = false :=
  driver_spec 2 (fun _ => timeoutInputs)
    (fun n _ => by rw [mainRun_timeoutInputs n]; rfl)

/-- Inputs of a repetition whose client invocation throws. -/
def raisingInputs : MainInputs :=
  { proj_dir := "/proj"
    my_job_id := "job1"
    with_flowcept := false
    gpu_type := "nvidia"
    nnodes := 1
    n_gpus_per_node := 1
    fileAt := fun _ => true
    clientRaises := true
    wfResultFileExists := false
    wfResultContents := "" }

lemma mainRun_raisingInputs (n : Nat) :
    (mainRun raisingInputs n).2 = Outcome.raisedClientError := by
  simp [mainRun, raisingInputs, awaitReady_const_true,
    start_scheduler_run_nvidia, start_workers_run_nvidia]

/-- C9 (counterexample): the claim "a failing repetition — including one
aborted by a fatal error raised within it — does not prevent subsequent
repetitions, and the SUCCESS marker is written once all repetitions
finish" is false: with `nreps = 2` and a client exception in repetition
0, the `for` loop (which has no `try`) aborts, repetition 1 never runs,
and the SUCCESS marker is never written. -/
theorem driver_counterexample :
    (driverRun 2 (fun _ => raisingInputs)).1.map Prod.fst = [0] ∧
    (driverRun 2 (fun _ => raisingInputs)).2 = 0 := by
  have h0 := mainRun_raisingInputs 0
  rw [driverRun, runReps, if_pos (by rw [h0]; rfl)]
  simp

/-- Python `str.replace(p, v)` on character lists: scan left to right,
replacing each leftmost non-overlapping occurrence of `p` and continuing
after it without re-scanning the inserted text.  `fuel` only bounds the
recursion: every step consumes at least one character of `s` (the
patterns used here are never empty), so `s.length` fuel — supplied by the
`pyReplace` wrapper — always suffices. -/
def replaceAux (p v : List Char) : Nat → List Char → List Char
  | 0, s => s
  | _ + 1, [] => []
  | fuel + 1, c :: cs =>
    if p.isPrefixOf (c :: cs) then v ++ replaceAux p v fuel (List.drop (p.length - 1) cs)
    else c :: replaceAux p v fuel cs

/-- `s.replace(p, v)` (Python semantics). -/
def pyReplace (p v s : List Char) : List Char := replaceAux p v s.length s

/-- The fixed suffix `_val]` of every placeholder token. -/
def valSuffix : List Char := '_' :: 'v' :: 'a' :: 'l' :: ']' :: []

/-- The `$[` + key + `_val]` placeholder token built on source line 135. -/
def placeholder (k : List Char) : List Char := '$' :: '[' :: (k ++ valSuffix)

/-- The loop `for k, v in client_cmd_args.items():
cmd = cmd.replace("$[" + k + "_val]", v)` (source lines 134-135). -/
def substitutePlaceholders : List (List Char × List Char) → List Char → List Char
  | [], t => t
  | (k, v) :: rest, t => substitutePlaceholders rest (pyReplace (placeholder k) v t)

/-- The `client_cmd_args` dict (source lines 127-132), in insertion
order: `rep-dir` and `scheduler-file` always, `workflow-params` only when
workflow params were supplied. -/
def client_cmd_args (rep_dir scheduler_file : List Char) (wfJson : Option (List Char)) :
    List (List Char × List Char) :=
  [("rep-dir".toList, rep_dir), ("scheduler-file".toList, scheduler_file)] ++
    (match wfJson with
     | some js => [("workflow-params".toList, js)]
     | none => [])

/-- The substituted client command of `start_client` (before the
monitoring flag is appended on line 137). -/
def buildClientCommand (template rep_dir scheduler_file : List Char)
    (wfJson : Option (List Char)) : List Char :=
  substitutePlaceholders (client_cmd_args rep_dir scheduler_file wfJson) template

/-- A suffix of a concatenation is a suffix of the right part or a
nonempty suffix of the left part followed by the whole right part. -/
lemma suffix_append_cases {α : Type} {w a b : List α} (h : w <:+ a ++ b) :
    w <:+ b ∨ ∃ a1, a1 ≠ [] ∧ a1 <:+ a ∧ w = a1 ++ b := by
  obtain ⟨t, ht⟩ := h
  rcases List.append_eq_append_iff.mp ht with ⟨a', ha1, ha2⟩ | ⟨c', _, hc2⟩
  · rcases eq_or_ne a' [] with he | he
    · subst he
      simp at ha2
      exact Or.inl (ha2 ▸ List.suffix_refl b)
    · exact Or.inr ⟨a', he, ⟨t, ha1.symm⟩, ha2⟩
  · exact Or.inl ⟨c', hc2.symm⟩

/-- An occurrence inside a concatenation lies in the left part, in the
right part, or spans the junction. -/
lemma infix_append_cases {α : Type} {u a b : List α} (h : u <:+: a ++ b) :
    u <:+: a ∨ u <:+: b ∨
      ∃ u1 u2, u = u1 ++ u2 ∧ u1 ≠ [] ∧ u2 ≠ [] ∧ u1 <:+ a ∧ u2 <+: b := by
  obtain ⟨x, y, hxy⟩ := h
  rw [List.append_assoc] at hxy
  rcases List.append_eq_append_iff.mp hxy with ⟨a', ha1, ha2⟩ | ⟨c', _, hc2⟩
  · rcases List.append_eq_append_iff.mp ha2 with ⟨a'', hb1, _⟩ | ⟨u', hu1, hu2⟩
    · exact Or.inl ⟨x, a'', by rw [ha1, hb1, List.append_assoc]⟩
    · rcases eq_or_ne a' [] with he | he
      · subst he
        simp at hu1
        exact Or.inr (Or.inl ⟨[], y, by rw [hu1]; simp [hu2.symm]⟩)
      · rcases eq_or_ne u' [] with he' | he'
        · subst he'
          simp at hu1
          exact Or.inl ⟨x, [], by rw [ha1, hu1]; simp⟩
        · exact Or.inr (Or.inr ⟨a', u', hu1, he, he',
            ⟨x, ha1.symm⟩, ⟨y, hu2.symm⟩⟩)
  · exact Or.inr (Or.inl ⟨c', y, by rw [List.append_assoc]; exact hc2.symm⟩)

/-- Pulling a proper sub-token prefix of the output of `replaceAux` back
to the input: if a proper suffix `P₁.drop a` of a token is a prefix of
the output and the replacement value starts with a character not in
`P₁`, that suffix was already a prefix of the input. -/
lemma dropSub_pref_of_replaceAux (P₁ P₂ : List Char) (vc : Char) (vt : List Char)
    (hv : vc ∉ P₁) :
    ∀ fuel s a, 1 ≤ a → a < P₁.length →
      P₁.drop a <+: replaceAux P₂ (vc :: vt) fuel s → P₁.drop a <+: s := by
  intro fuel
  induction fuel with
  | zero =>
    intro s a _ _ hpre
    exact hpre
  | succ fuel ih =>
    intro s a ha1 ha2 hpre
    match s with
    | [] =>
      rw [replaceAux] at hpre
      have hlen := hpre.length_le
      simp [List.length_drop] at hlen
      omega
    | c :: cs =>
      rw [replaceAux] at hpre
      by_cases hp : P₂.isPrefixOf (c :: cs)
      · rw [if_pos hp] at hpre
        exfalso
        rw [List.drop_eq_getElem_cons ha2] at hpre
        have := (List.cons_prefix_cons.mp hpre).1
        exact hv (this ▸ List.getElem_mem ha2)
      · rw [if_neg hp] at hpre
        rw [List.drop_eq_getElem_cons ha2] at hpre
        obtain ⟨hc, htl⟩ := List.cons_prefix_cons.mp hpre
        rcases eq_or_lt_of_le (Nat.succ_le_of_lt ha2) with he | hlt
        · have hnil : P₁.drop (a + 1) = [] := by
            rw [List.drop_eq_nil_iff]
            omega
          rw [List.drop_eq_getElem_cons ha2, hnil, hc]
          exact List.cons_prefix_cons.mpr ⟨rfl, List.nil_prefix⟩
        · have hrec := ih cs (a + 1) (by omega) hlt htl
          rw [List.drop_eq_getElem_cons ha2, hc]
          exact List.cons_prefix_cons.mpr ⟨rfl, hrec⟩

/-- After replacing every occurrence of a token `'$' :: ptail` by a
value that contains no `'$'` and starts with a character not in the
token, no occurrence of the token remains in the output. -/
lemma not_self_infix_replaceAux (ptail : List Char) (vc : Char) (vt : List Char)
    (hpt : ptail ≠ []) (hvd : '$' ∉ vc :: vt) (hvc : vc ∉ '$' :: ptail) :
    ∀ fuel s, s.length ≤ fuel →
      ¬ ('$' :: ptail) <:+: replaceAux ('$' :: ptail) (vc :: vt) fuel s := by
  intro fuel
  induction fuel with
  | zero =>
    intro s hs hinf
    have hse : s = [] := List.length_eq_zero.mp (Nat.le_zero.mp hs)
    subst hse
    rw [replaceAux, List.infix_nil] at hinf
    exact List.cons_ne_nil _ _ hinf
  | succ fuel ih =>
    intro s hs hinf
    match s with
    | [] =>
      rw [replaceAux, List.infix_nil] at hinf
      exact List.cons_ne_nil _ _ hinf
    | c :: cs =>
      rw [replaceAux] at hinf
      by_cases hp : ('$' :: ptail).isPrefixOf (c :: cs)
      · rw [if_pos hp] at hinf
        obtain ⟨w, hw1, hw2⟩ := List.infix_iff_prefix_suffix.mp hinf
        rcases suffix_append_cases hw2 with hwR | ⟨v1, hv1ne, hv1suf, rfl⟩
        · refine ih _ ?_ (List.infix_iff_prefix_suffix.mpr ⟨w, hw1, hwR⟩)
          simp only [List.length_cons] at hs
          simp only [List.length_drop]
          omega
        · obtain ⟨d, d1, rfl⟩ := List.exists_cons_of_ne_nil hv1ne
          have hd := (List.cons_prefix_cons.mp hw1).1
          exact hvd (hd ▸ hv1suf.subset (List.mem_cons_self d d1))
      · rw [if_neg hp] at hinf
        obtain ⟨w, hw1, hw2⟩ := List.infix_iff_prefix_suffix.mp hinf
        rcases List.suffix_cons_iff.mp hw2 with rfl | hwR
        · obtain ⟨hc, htl⟩ := List.cons_prefix_cons.mp hw1
          have hpl : 1 < ('$' :: ptail).length := by
            cases ptail with
            | nil => exact absurd rfl hpt
            | cons a l => simp
          have htl' : ('$' :: ptail).drop 1 <+:
              replaceAux ('$' :: ptail) (vc :: vt) fuel cs := by
            simpa using htl
          have hcs := dropSub_pref_of_replaceAux ('$' :: ptail) ('$' :: ptail) vc vt hvc
            fuel cs 1 (Nat.le_refl 1) hpl htl'
          exact hp (List.isPrefixOf_iff_prefix.mpr
            (List.cons_prefix_cons.mpr ⟨hc, by simpa using hcs⟩))
        · exact ih cs (by simpa using hs)
            (List.infix_iff_prefix_suffix.mpr ⟨w, hw1, hwR⟩)

/-- Replacing occurrences of a (different, nonempty) token `P₂` preserves
the absence of the token `'$' :: p1t`, provided the inserted value has no
`'$'` and starts with a character not in `'$' :: p1t`. -/
lemma foreign_absent_replaceAux (p1t P₂ : List Char) (vc : Char) (vt : List Char)
    (hvd : '$' ∉ vc :: vt) (hvc : vc ∉ '$' :: p1t) :
    ∀ fuel s, s.length ≤ fuel → ¬ ('$' :: p1t) <:+: s →
      ¬ ('$' :: p1t) <:+: replaceAux P₂ (vc :: vt) fuel s := by
  intro fuel
  induction fuel with
  | zero =>
    intro s hs hns hinf
    have hse : s = [] := List.length_eq_zero.mp (Nat.le_zero.mp hs)
    subst hse
    rw [replaceAux] at hinf
    exact hns hinf
  | succ fuel ih =>
    intro s hs hns hinf
    match s with
    | [] =>
      rw [replaceAux, List.infix_nil] at hinf
      exact List.cons_ne_nil _ _ hinf
    | c :: cs =>
      rw [replaceAux] at hinf
      by_cases hp : P₂.isPrefixOf (c :: cs)
      · rw [if_pos hp] at hinf
        have hdropN : ¬ ('$' :: p1t) <:+: List.drop (P₂.length - 1) cs := by
          intro hcon
          exact hns (hcon.trans ((List.drop_suffix _ cs).isInfix.trans
            (List.suffix_cons c cs).isInfix))
        obtain ⟨w, hw1, hw2⟩ := List.infix_iff_prefix_suffix.mp hinf
        rcases suffix_append_cases hw2 with hwR | ⟨v1, hv1ne, hv1suf, rfl⟩
        · refine ih _ ?_ hdropN (List.infix_iff_prefix_suffix.mpr ⟨w, hw1, hwR⟩)
          simp only [List.length_cons] at hs
          simp only [List.length_drop]
          omega
        · obtain ⟨d, d1, rfl⟩ := List.exists_cons_of_ne_nil hv1ne
          have hd := (List.cons_prefix_cons.mp hw1).1
          exact hvd (hd ▸ hv1suf.subset (List.mem_cons_self d d1))
      · rw [if_neg hp] at hinf
        have hcsN : ¬ ('$' :: p1t) <:+: cs := fun hcon =>
          hns (hcon.trans (List.suffix_cons c cs).isInfix)
        obtain ⟨w, hw1, hw2⟩ := List.infix_iff_prefix_suffix.mp hinf
        rcases List.suffix_cons_iff.mp hw2 with rfl | hwR
        · obtain ⟨hc, htl⟩ := List.cons_prefix_cons.mp hw1
          rcases eq_or_ne p1t [] with hpe | hpe
          · subst hpe
            exact hns (List.IsPrefix.isInfix
              (List.cons_prefix_cons.mpr ⟨hc, List.nil_prefix⟩))
          · have hpl : 1 < ('$' :: p1t).length := by
              cases p1t with
              | nil => exact absurd rfl hpe
              | cons a l => simp
            have htl' : ('$' :: p1t).drop 1 <+: replaceAux P₂ (vc :: vt) fuel cs := by
              simpa using htl
            have hcs := dropSub_pref_of_replaceAux ('$' :: p1t) P₂ vc vt hvc
              fuel cs 1 (Nat.le_refl 1) hpl htl'
            exact hns (List.IsPrefix.isInfix
              (List.cons_prefix_cons.mpr ⟨hc, by simpa using hcs⟩))
        · exact ih cs (by simpa using hs) hcsN
            (List.infix_iff_prefix_suffix.mpr ⟨w, hw1, hwR⟩)

/-- `s.replace(p, v) = s` when `p` does not occur in `s`. -/
lemma replaceAux_eq_of_absent (p v : List Char) :
    ∀ fuel s, ¬ p <:+: s → replaceAux p v fuel s = s := by
  intro fuel
  induction fuel with
  | zero =>
    intro s _
    rw [replaceAux]
  | succ fuel ih =>
    intro s hns
    match s with
    | [] => rw [replaceAux]
    | c :: cs =>
      rw [replaceAux]
      have hp : ¬ p.isPrefixOf (c :: cs) := by
        intro hcon
        exact hns (List.IsPrefix.isInfix (List.isPrefixOf_iff_prefix.mp hcon))
      rw [if_neg hp,
        ih cs (fun hcon => hns (hcon.trans (List.suffix_cons c cs).isInfix))]

/-- A `'$'`-free prefix of the input is still a prefix of the output of
replacing a `'$'`-headed token. -/
lemma pref_replaceAux_of_no_dollar (ptail v : List Char) :
    ∀ fuel u s, '$' ∉ u → u <+: s → u <+: replaceAux ('$' :: ptail) v fuel s := by
  intro fuel
  induction fuel with
  | zero =>
    intro u s _ hpre
    rw [replaceAux]
    exact hpre
  | succ fuel ih =>
    intro u s hu hpre
    match u with
    | [] => exact List.nil_prefix
    | d :: u' =>
      match s with
      | [] =>
        have := hpre.length_le
        simp at this
      | c :: cs =>
        rw [replaceAux]
        obtain ⟨hd, htl⟩ := List.cons_prefix_cons.mp hpre
        have hp : ¬ ('$' :: ptail).isPrefixOf (c :: cs) := by
          intro hcon
          have hdc := (List.cons_prefix_cons.mp (List.isPrefixOf_iff_prefix.mp hcon)).1
          have hdd : d = '$' := hd.trans hdc.symm
          apply hu
          rw [← hdd]
          exact List.mem_cons_self d u'
        rw [if_neg hp]
        exact List.cons_prefix_cons.mpr
          ⟨hd, ih u' cs (fun hcon => hu (List.mem_cons_of_mem d hcon)) htl⟩

/-- An occurrence of a token `'$' :: utail` that is prefix-incomparable
with the replaced token `'$' :: p1t` survives the replacement (both
tokens contain `'$'` only as their head). -/
lemma infix_preserved_replaceAux (p1t utail v : List Char)
    (hpd : '$' ∉ p1t) (hud : '$' ∉ utail)
    (hup : ¬ ('$' :: utail) <+: ('$' :: p1t))
    (hpu : ¬ ('$' :: p1t) <+: ('$' :: utail)) :
    ∀ fuel s, ('$' :: utail) <:+: s →
      ('$' :: utail) <:+: replaceAux ('$' :: p1t) v fuel s := by
  intro fuel
  induction fuel with
  | zero =>
    intro s h
    rw [replaceAux]
    exact h
  | succ fuel ih =>
    intro s hinf
    match s with
    | [] =>
      rw [List.infix_nil] at hinf
      exact absurd hinf (List.cons_ne_nil _ _)
    | c :: cs =>
      rw [replaceAux]
      by_cases hp : ('$' :: p1t).isPrefixOf (c :: cs)
      · rw [if_pos hp]
        have hps : ('$' :: p1t) <+: (c :: cs) := List.isPrefixOf_iff_prefix.mp hp
        obtain ⟨s', hs'⟩ := hps
        have hsd : List.drop (('$' :: p1t).length - 1) cs = s' := by
          have h1 := congrArg (List.drop ('$' :: p1t).length) hs'
          rw [List.drop_left] at h1
          rw [h1]
          simp
        rw [hsd]
        rw [← hs'] at hinf
        rcases infix_append_cases hinf with hP | hS | ⟨u1, u2, hu12, hu1ne, hu2ne, hu1suf, hu2pre⟩
        · exfalso
          obtain ⟨w, hw1, hw2⟩ := List.infix_iff_prefix_suffix.mp hP
          rcases List.suffix_cons_iff.mp hw2 with rfl | hwp
          · exact hup hw1
          · cases w with
            | nil => exact List.cons_ne_nil _ _ (List.prefix_nil.mp hw1)
            | cons e w' =>
              have he := (List.cons_prefix_cons.mp hw1).1
              exact hpd (he ▸ hwp.subset (List.mem_cons_self e w'))
        · exact (ih s' hS).trans (List.suffix_append v _).isInfix
        · rcases List.suffix_cons_iff.mp hu1suf with rfl | hu1p
          · exact absurd (by rw [hu12]; exact List.prefix_append _ _) hpu
          · exfalso
            cases u1 with
            | nil => exact hu1ne rfl
            | cons e u1' =>
              have he : '$' = e := by
                have h2 := congrArg List.head? hu12
                simpa using h2
              exact hpd (he ▸ hu1p.subset (List.mem_cons_self e u1'))
      · rw [if_neg hp]
        obtain ⟨w, hw1, hw2⟩ := List.infix_iff_prefix_suffix.mp hinf
        rcases List.suffix_cons_iff.mp hw2 with rfl | hwR
        · obtain ⟨hc, htl⟩ := List.cons_prefix_cons.mp hw1
          have hres := pref_replaceAux_of_no_dollar p1t v fuel utail cs hud htl
          exact List.IsPrefix.isInfix (List.cons_prefix_cons.mpr ⟨hc, hres⟩)
        · exact ((ih cs (List.infix_iff_prefix_suffix.mpr ⟨w, hw1, hwR⟩)).trans
            (List.suffix_cons c _).isInfix)

/-- Keys drawn from an alphabet without the token meta-characters. -/
def SafeKey (k : List Char) : Prop := '$' ∉ k ∧ '[' ∉ k ∧ ']' ∉ k

/-- A value is path-like for a set of tokens: nonempty, free of `'$'`,
and starting with a character occurring in none of the tokens (e.g. an
absolute path starting with `'/'`). -/
def GoodVal (toks : List (List Char)) (v : List Char) : Prop :=
  v ≠ [] ∧ '$' ∉ v ∧ ∀ p ∈ toks, ∀ c ∈ v.take 1, c ∉ p

/-- All supplied keys are safe and all supplied values are path-like for
the supplied tokens. -/
def GoodPairs (pairs : List (List Char × List Char)) : Prop :=
  ∀ kv ∈ pairs, SafeKey kv.1 ∧ GoodVal (pairs.map (fun x => placeholder x.1)) kv.2

lemma goodPairs_tail {kv0 : List Char × List Char}
    {rest : List (List Char × List Char)} (h : GoodPairs (kv0 :: rest)) :
    GoodPairs rest := by
  intro kv2 h2
  obtain ⟨hS2, hne, hd, hh⟩ := h kv2 (List.mem_cons_of_mem _ h2)
  refine ⟨hS2, hne, hd, ?_⟩
  intro p hp c hc
  exact hh p (by rw [List.map_cons]; exact List.mem_cons_of_mem _ hp) c hc

lemma dollar_not_mem_ptail (k : List Char) (hk : SafeKey k) :
    '$' ∉ '[' :: (k ++ valSuffix) := by
  intro hmem
  rcases List.mem_cons.mp hmem with he | hmem2
  · exact absurd he (by decide)
  · rcases List.mem_append.mp hmem2 with h | h
    · exact hk.1 h
    · exact absurd h (by decide)

/-- A dropped tail of `_val]` is a prefix of `b ++ _val]` (with `b` free
of `']'`) only in the trivial way. -/
lemma valSuffix_drop_pref :
    ∀ (b : List Char), ']' ∉ b → ∀ j, j ≤ 4 →
      valSuffix.drop j <+: b ++ valSuffix → b = [] ∧ j = 0 := by
  intro b
  induction b with
  | nil =>
    intro _ j hj hpre
    simp only [List.nil_append] at hpre
    refine ⟨rfl, ?_⟩
    interval_cases j
    · rfl
    · exact absurd hpre (by decide)
    · exact absurd hpre (by decide)
    · exact absurd hpre (by decide)
    · exact absurd hpre (by decide)
  | cons c b' ih =>
    intro hb j hj hpre
    exfalso
    have hjlt : j < valSuffix.length := by
      simp only [valSuffix, List.length_cons, List.length_nil]
      omega
    rw [List.drop_eq_getElem_cons hjlt, List.cons_append] at hpre
    obtain ⟨hc, htl⟩ := List.cons_prefix_cons.mp hpre
    rcases eq_or_lt_of_le hj with he | hlt
    · have hval : valSuffix[j] = ']' := by
        subst he
        rfl
      apply hb
      rw [← hc, hval]
      exact List.mem_cons_self _ _
    · have hres := ih (fun hcon => hb (List.mem_cons_of_mem c hcon)) (j + 1)
        (by omega) (by simpa [List.drop_eq_getElem_cons] using htl)
      omega

lemma append_valSuffix_pref :
    ∀ (a b : List Char), ']' ∉ a → ']' ∉ b →
      a ++ valSuffix <+: b ++ valSuffix → a = b := by
  intro a
  induction a with
  | nil =>
    intro b _ hb hpre
    simp only [List.nil_append] at hpre
    have hres := valSuffix_drop_pref b hb 0 (by omega) (by simpa using hpre)
    exact hres.1.symm
  | cons c a' ih =>
    intro b ha hb hpre
    match b with
    | [] =>
      exfalso
      have hlen := hpre.length_le
      simp only [List.nil_append, List.length_append, List.length_cons, valSuffix,
        List.length_nil] at hlen
      omega
    | d :: b' =>
      rw [List.cons_append, List.cons_append] at hpre
      obtain ⟨hc, htl⟩ := List.cons_prefix_cons.mp hpre
      have ha' : ']' ∉ a' := fun h => ha (List.mem_cons_of_mem c h)
      have hb' : ']' ∉ b' := fun h => hb (List.mem_cons_of_mem d h)
      rw [hc, ih b' ha' hb' htl]

/-- Distinct safe keys give prefix-incomparable placeholder tokens. -/
lemma placeholder_pref (k1 k2 : List Char) (h1 : SafeKey k1) (h2 : SafeKey k2)
    (hp : placeholder k1 <+: placeholder k2) : k1 = k2 := by
  rw [placeholder, placeholder] at hp
  obtain ⟨_, hp1⟩ := List.cons_prefix_cons.mp hp
  obtain ⟨_, hp2⟩ := List.cons_prefix_cons.mp hp1
  exact append_valSuffix_pref k1 k2 h1.2.2 h2.2.2 hp2

/-- Absence of a `'$'`-headed token is preserved through a whole
substitution pass whose values are nonempty, `'$'`-free and headed by
characters outside the token. -/
lemma not_infix_substitute (p1t : List Char) :
    ∀ (pairs : List (List Char × List Char)) t,
      (∀ kv ∈ pairs, kv.2 ≠ [] ∧ '$' ∉ kv.2 ∧
        ∀ c ∈ kv.2.take 1, c ∉ ('$' :: p1t)) →
      ¬ ('$' :: p1t) <:+: t →
      ¬ ('$' :: p1t) <:+: substitutePlaceholders pairs t := by
  intro pairs
  induction pairs with
  | nil =>
    intro t _ hn
    exact hn
  | cons kv0 rest ih =>
    intro t hG hn
    obtain ⟨k, v⟩ := kv0
    rw [substitutePlaceholders]
    obtain ⟨hvne, hvd, hvh⟩ := hG (k, v) (List.mem_cons_self _ _)
    obtain ⟨vc, vt, rfl⟩ := List.exists_cons_of_ne_nil hvne
    have hvc : vc ∉ ('$' :: p1t) := hvh vc (by simp)
    have hstep : ¬ ('$' :: p1t) <:+: pyReplace (placeholder k) (vc :: vt) t := by
      rw [pyReplace]
      exact foreign_absent_replaceAux p1t (placeholder k) vc vt hvd hvc
        t.length t (Nat.le_refl _) hn
    exact ih _ (fun kv2 h2 => hG kv2 (List.mem_cons_of_mem _ h2)) hstep

/-- After a full substitution pass over path-like values, no supplied
key's token occurs in the result. -/
lemma substituted_no_token :
    ∀ (pairs : List (List Char × List Char)) t, GoodPairs pairs →
      ∀ kv ∈ pairs, ¬ placeholder kv.1 <:+: substitutePlaceholders pairs t := by
  intro pairs
  induction pairs with
  | nil =>
    intro t _ kv hkv
    exact absurd hkv (List.not_mem_nil _)
  | cons kv0 rest ih =>
    intro t hG kv hkv
    obtain ⟨k, v⟩ := kv0
    obtain ⟨hSafe, hvne, hvd, hvh⟩ := hG (k, v) (List.mem_cons_self _ _)
    obtain ⟨vc, vt, rfl⟩ := List.exists_cons_of_ne_nil hvne
    rw [substitutePlaceholders]
    rcases List.mem_cons.mp hkv with rfl | hmem
    · have hvc : vc ∉ placeholder k := by
        refine hvh (placeholder k) ?_ vc (by simp)
        rw [List.map_cons]
        exact List.mem_cons_self _ _
      have hstep : ¬ placeholder k <:+: pyReplace (placeholder k) (vc :: vt) t := by
        rw [pyReplace]
        exact not_self_infix_replaceAux ('[' :: (k ++ valSuffix)) vc vt
          (by simp) hvd hvc t.length t (Nat.le_refl _)
      refine not_infix_substitute ('[' :: (k ++ valSuffix)) rest _ ?_ hstep
      intro kv2 h2
      obtain ⟨_, hne2, hd2, hh2⟩ := hG kv2 (List.mem_cons_of_mem _ h2)
      refine ⟨hne2, hd2, ?_⟩
      intro c hc
      have hmemtok : placeholder k ∈
          ((k, vc :: vt) :: rest).map (fun x => placeholder x.1) := by
        rw [List.map_cons]
        exact List.mem_cons_self _ _
      exact hh2 (placeholder k) hmemtok c hc
    · exact ih _ (goodPairs_tail hG) kv hmem

/-- A substitution pass is the identity on a string containing none of
the supplied tokens. -/
lemma substitute_id_of_no_tokens :
    ∀ (pairs : List (List Char × List Char)) r,
      (∀ kv ∈ pairs, ¬ placeholder kv.1 <:+: r) →
      substitutePlaceholders pairs r = r := by
  intro pairs
  induction pairs with
  | nil =>
    intro r _
    rw [substitutePlaceholders]
  | cons kv0 rest ih =>
    intro r h
    obtain ⟨k, v⟩ := kv0
    rw [substitutePlaceholders, pyReplace,
      replaceAux_eq_of_absent _ _ _ _ (h (k, v) (List.mem_cons_self _ _))]
    exact ih r (fun kv2 h2 => h kv2 (List.mem_cons_of_mem _ h2))

/-- Tokens of keys that are not supplied survive the substitution. -/
lemma unsupplied_token_preserved :
    ∀ (pairs : List (List Char × List Char)) (u : List Char) t,
      GoodPairs pairs → SafeKey u → (∀ kv ∈ pairs, kv.1 ≠ u) →
      placeholder u <:+: t →
      placeholder u <:+: substitutePlaceholders pairs t := by
  intro pairs
  induction pairs with
  | nil =>
    intro u t _ _ _ h
    exact h
  | cons kv0 rest ih =>
    intro u t hG hu hne hinf
    obtain ⟨k, v⟩ := kv0
    rw [substitutePlaceholders]
    have hSk : SafeKey k := (hG (k, v) (List.mem_cons_self _ _)).1
    have hkne : k ≠ u := hne (k, v) (List.mem_cons_self _ _)
    have hup : ¬ placeholder u <+: placeholder k := fun hcon =>
      hkne (placeholder_pref u k hu hSk hcon).symm
    have hpu : ¬ placeholder k <+: placeholder u := fun hcon =>
      hkne (placeholder_pref k u hSk hu hcon)
    have hstep : placeholder u <:+: pyReplace (placeholder k) v t := by
      rw [pyReplace]
      exact infix_preserved_replaceAux ('[' :: (k ++ valSuffix))
        ('[' :: (u ++ valSuffix)) v (dollar_not_mem_ptail k hSk)
        (dollar_not_mem_ptail u hu) hup hpu t.length t hinf
    exact ih u _ (goodPairs_tail hG) hu
      (fun kv2 h2 => hne kv2 (List.mem_cons_of_mem _ h2)) hstep

/-- C6 (amended): provided the supplied values are path-like (nonempty,
containing no `'$'`, and beginning with a character that occurs in no
placeholder token — true of the `/`-rooted paths the code passes), the
substitution of `start_client` replaces every occurrence of every
supplied key's `$[key_val]` token, leaving zero tokens of supplied keys
in the result; applying the same substitution to the result leaves it
unchanged (idempotence); and the token of any safe key that was not
supplied survives verbatim.  (Without the path-like proviso the claim
fails — see the counterexample — because a value may itself contain or
complete a token.) -/
theorem substitution_spec (template rep_dir scheduler_file : List Char)
    (wfJson : Option (List Char))
    (hg : GoodPairs (client_cmd_args rep_dir scheduler_file wfJson)) :
    (∀ kv ∈ client_cmd_args rep_dir scheduler_file wfJson,
        ¬ placeholder kv.1 <:+: buildClientCommand template rep_dir scheduler_file wfJson) ∧
    substitutePlaceholders (client_cmd_args rep_dir scheduler_file wfJson)
        (buildClientCommand template rep_dir scheduler_file wfJson) =
      buildClientCommand template rep_dir scheduler_file wfJson ∧
    (∀ u, SafeKey u →
        (∀ kv ∈ client_cmd_args rep_dir scheduler_file wfJson, kv.1 ≠ u) →
        placeholder u <:+: template →
        placeholder u <:+: buildClientCommand template rep_dir scheduler_file wfJson) := by
  refine ⟨?_, ?_, ?_⟩
  · intro kv hkv
    exact substituted_no_token _ template hg kv hkv
  · exact substitute_id_of_no_tokens _ _
      (fun kv hkv => substituted_no_token _ template hg kv hkv)
  · intro u hu hne hinf
    exact unsupplied_token_preserved _ u template hg hu hne hinf

/-- C6 (witness): the amended substitution properties at the concrete
template and path values of a repetition. -/
theorem substitution_spec_witness :
    (∀ kv ∈ client_cmd_args ("/tmp/rep0".toList)
        ("/tmp/rep0/scheduler_info.json".toList) none,
        ¬ placeholder kv.1 <:+:
          buildClientCommand ("python wf.py $[rep-dir_val] $[scheduler-file_val] $[foo_val]".toList)
            ("/tmp/rep0".toList) ("/tmp/rep0/scheduler_info.json".toList) none) ∧
    substitutePlaceholders (client_cmd_args ("/tmp/rep0".toList)
        ("/tmp/rep0/scheduler_info.json".toList) none)
        (buildClientCommand ("python wf.py $[rep-dir_val] $[scheduler-file_val] $[foo_val]".toList)
          ("/tmp/rep0".toList) ("/tmp/rep0/scheduler_info.json".toList) none) =
      buildClientCommand ("python wf.py $[rep-dir_val] $[scheduler-file_val] $[foo_val]".toList)
        ("/tmp/rep0".toList) ("/tmp/rep0/scheduler_info.json".toList) none ∧
    (∀ u, SafeKey u →
        (∀ kv ∈ client_cmd_args ("/tmp/rep0".toList)
            ("/tmp/rep0/scheduler_info.json".toList) none, kv.1 ≠ u) →
        placeholder u <:+: ("python wf.py $[rep-dir_val] $[scheduler-file_val] $[foo_val]".toList) →
        placeholder u <:+:
          buildClientCommand ("python wf.py $[rep-dir_val] $[scheduler-file_val] $[foo_val]".toList)
            ("/tmp/rep0".toList) ("/tmp/rep0/scheduler_info.json".toList) none) :=
  substitution_spec ("python wf.py $[rep-dir_val] $[scheduler-file_val] $[foo_val]".toList)
    ("/tmp/rep0".toList) ("/tmp/rep0/scheduler_info.json".toList) none
    (by unfold GoodPairs GoodVal SafeKey; decide)

/-- C6 (counterexample): the claim as stated — for arbitrary supplied
values the result contains zero remaining tokens of supplied keys and
re-substitution leaves it unchanged — is false: supplying
`scheduler-file := "$[rep-dir_val]"` makes the (sequential, per-key)
substitution re-introduce the already-processed `rep-dir` token, so the
result still contains a supplied key's token and a second application
changes the string again. -/
theorem substitution_counterexample :
    buildClientCommand ("$[rep-dir_val] $[scheduler-file_val]".toList)
        ("A".toList) ("$[rep-dir_val]".toList) none = "A $[rep-dir_val]".toList ∧
    placeholder ("rep-dir".toList) <:+:
      buildClientCommand ("$[rep-dir_val] $[scheduler-file_val]".toList)
        ("A".toList) ("$[rep-dir_val]".toList) none ∧
    substitutePlaceholders (client_cmd_args ("A".toList) ("$[rep-dir_val]".toList) none)
        (buildClientCommand ("$[rep-dir_val] $[scheduler-file_val]".toList)
          ("A".toList) ("$[rep-dir_val]".toList) none) ≠
      buildClientCommand ("$[rep-dir_val] $[scheduler-file_val]".toList)
        ("A".toList) ("$[rep-dir_val]".toList) none := by
  refine ⟨by decide, by decide, by decide⟩

end RunDaskJob
